import Mathlib

/-!
Verification development for the httpcache repository: a private HTTP
response cache wrapping an HTTP transport.  The Go sources are embedded
shallowly: pure functions become Lean functions, the mutable cache becomes
explicit state passing, machine time becomes Int seconds, and the two Go
standard-library parsers the code calls (time.Parse with the RFC1123
layout, and time.ParseDuration on a value with an "s" suffix) are passed
in as explicit function parameters wherever theorems quantify over them,
with small concrete stand-ins used for concrete evaluations.
-/

namespace Httpcache

/-! ## String primitives

List-of-character implementations of the Go strings operations the
repository uses, written structurally so that concrete evaluation
reduces definitionally. -/

/-- Splits a character list on every occurrence of the separator, Go
strings.Split semantics: the empty input yields one empty field. -/
def splitOnChar (c : Char) : List Char → List (List Char)
  | [] => [[]]
  | x :: xs =>
    if x == c then [] :: splitOnChar c xs
    else
      match splitOnChar c xs with
      | [] => [[x]]
      | h :: t => (x :: h) :: t

/-- String wrapper for splitOnChar. -/
def splitStr (c : Char) (s : String) : List String :=
  (splitOnChar c s.data).map fun l => ⟨l⟩

/-- Trims characters satisfying the predicate from both ends, Go
strings.Trim semantics restricted to a character class. -/
def trimPred (p : Char → Bool) (s : String) : String :=
  ⟨((s.data.dropWhile p).reverse.dropWhile p).reverse⟩

/-- Go strings.Trim with a cutset of a single space. -/
def trimSpaces (s : String) : String := trimPred (· == ' ') s

/-- Go strings.Trim with a cutset of a single comma. -/
def trimCommas (s : String) : String := trimPred (· == ',') s

/-- Go strings.TrimSpace: trims all whitespace. -/
def trimWS (s : String) : String := trimPred Char.isWhitespace s

/-- Lower-cases every character, used for case-insensitive header-name
comparison. -/
def lowerStr (s : String) : String := ⟨s.data.map Char.toLower⟩

/-- Numeric value of a list of decimal digits. -/
def digitsToNat (l : List Char) : Nat :=
  l.foldl (fun a c => a * 10 + (c.toNat - 48)) 0

/-- Concrete stand-in for Go time.ParseDuration applied to a directive
value with an "s" suffix: a nonempty string of decimal digits parses to
that many seconds, anything else is malformed.  (Go additionally accepts
signs, fractions and unit suffixes; the repository only ever appends "s"
to header directive values, and the theorems that depend on parser
behaviour quantify over the parser, using this stand-in only to evaluate
concrete scenarios.) -/
def parseDurSec (s : String) : Option Int :=
  if s.data ≠ [] ∧ s.data.all Char.isDigit then some (digitsToNat s.data) else none

/-- Concrete stand-in for Go time.Parse with the RFC1123 layout, used
only to instantiate parser parameters in concrete scenarios: a nonempty
digit string denotes that many seconds since the epoch. -/
def parseDateNum (s : String) : Option Int := parseDurSec s

/-! ## Header model

Go net/http Header is a map from canonical header names to lists of
values.  The model is an association list of (name, value) pairs in
which the same name may occur several times (one pair per value of the
canonical key, in order); every lookup compares names
case-insensitively, which is observationally equivalent to canonicalising
keys on insertion since Go canonicalisation only changes letter case. -/

/-- Header: association list of header name/value pairs. -/
abbrev Header := List (String × String)

/-- Case-insensitive header-name equality (models Go canonical-key
equality). -/
def nameEq (a b : String) : Bool := lowerStr a == lowerStr b

/-- Go Header.Get: first value for the name, or the empty string. -/
def hGet (h : Header) (name : String) : String :=
  match h.find? (fun p => nameEq p.1 name) with
  | some p => p.2
  | none => ""

/-- All values stored for the name, in order (the list Go keeps under
the canonical key). -/
def hValues (h : Header) (name : String) : List String :=
  (h.filter (fun p => nameEq p.1 name)).map (·.2)

/-- Go Header.Set: replaces all values for the name with a single value.
Go canonicalises the stored key; since all lookups in this model are
case-insensitive, the stored spelling is kept as given. -/
def hSet (h : Header) (name val : String) : Header :=
  h.filter (fun p => !(nameEq p.1 name)) ++ [(name, val)]

/-- Direct map assignment headers[name] = vals used by the 304 merge:
replaces all values for the name by the given list. -/
def hSetAll (h : Header) (name : String) (vals : List String) : Header :=
  h.filter (fun p => !(nameEq p.1 name)) ++ vals.map (fun v => (name, v))

/-- Go http.CanonicalHeaderKey restricted to names made of letters,
digits and dashes (an invalid character leaves the name unchanged, as in
Go): upper-cases the first letter and every letter after a dash,
lower-cases the rest. -/
def canonChars : List Char → Bool → List Char
  | [], _ => []
  | c :: cs, up => (if up then c.toUpper else c.toLower) :: canonChars cs (c == '-')

def canonicalHeaderKey (s : String) : String :=
  if s.data.all (fun c => c.isAlphanum || c == '-') then ⟨canonChars s.data true⟩ else s

/-! ## header.go -/

/-- headerAllCommaSepValues (header.go): all comma-separated values of
every occurrence of the header, each whitespace-trimmed. -/
def headerAllCommaSepValues (h : Header) (name : String) : List String :=
  (hValues h name).flatMap fun v => (splitStr ',' v).map trimWS

/-- Date (header.go): value of the Date header parsed with the RFC1123
layout; the empty value is the ErrNoDateHeader error, a failed parse is
an error as well.  The RFC1123 parser is the pdate parameter. -/
def dateOf (pdate : String → Option Int) (respHeaders : Header) : Option Int :=
  let dateHeader := hGet respHeaders "date"
  if dateHeader == "" then none else pdate dateHeader

/-- The headers that are always hop-by-hop (header.go). -/
def hopByHopHeaders : List String :=
  ["Connection", "Keep-Alive", "Proxy-Authenticate", "Proxy-Authorization",
   "Te", "Trailers", "Transfer-Encoding", "Upgrade"]

/-- Distinct canonical names present in a header (models iteration over
the keys of the Go header map). -/
def headerNames (h : Header) : List String :=
  (h.map (fun p => canonicalHeaderKey p.1)).dedup

/-- getEndToEndHeaders (header.go): names of the response headers that
are not hop-by-hop, where any name listed in the Connection header is
also hop-by-hop. -/
def getEndToEndHeaders (respHeaders : Header) : List String :=
  let hbh := hopByHopHeaders ++
    ((splitStr ',' (hGet respHeaders "connection")).filterMap fun extra =>
      if trimSpaces extra ≠ "" then some (canonicalHeaderKey extra) else none)
  (headerNames respHeaders).filter fun n => !(hbh.contains n)

/-! ## memcache.go: directives, freshness, stale-if-error -/

/-- cacheControl (memcache.go): a map from directive name to value.
Modelled as an association list with overwrite-on-insert; directive
names are compared exactly (case-sensitively), as Go map keys are. -/
abbrev CacheControl := List (String × String)

/-- Map assignment cc[k] = v: last write wins. -/
def ccInsert (cc : CacheControl) (k v : String) : CacheControl :=
  cc.filter (fun p => !(p.1 == k)) ++ [(k, v)]

/-- Map lookup: present value, or none. -/
def ccGet (cc : CacheControl) (k : String) : Option String :=
  (cc.find? (fun p => p.1 == k)).map (·.2)

/-- Presence test, the ok of a Go comma-ok map read. -/
def ccHas (cc : CacheControl) (k : String) : Bool := (ccGet cc k).isSome

/-- parseCacheControl (memcache.go): splits the Cache-Control header
value on commas, trims spaces from each part, skips empty parts; a part
containing an equals sign is split on every equals sign, storing under
the space-trimmed first segment the comma-trimmed second segment; a part
without an equals sign is stored with an empty value. -/
def parseCacheControl (headers : Header) : CacheControl :=
  let ccHeader := hGet headers "Cache-Control"
  (splitStr ',' ccHeader).foldl
    (fun cc part0 =>
      let part := trimSpaces part0
      if part == "" then cc
      else if part.data.contains '=' then
        let keyVal := splitStr '=' part
        ccInsert cc (trimSpaces (keyVal.getD 0 "")) (trimCommas (keyVal.getD 1 ""))
      else ccInsert cc part "")
    []

/-- canStore (memcache.go): neither side carries no-store. -/
def canStore (reqCacheControl respCacheControl : CacheControl) : Bool :=
  !(ccHas respCacheControl "no-store") && !(ccHas reqCacheControl "no-store")

/-- entryFreshness (memcache.go). -/
inductive EntryFreshness where
  | stale
  | fresh
  | transparent
deriving DecidableEq, Repr

/-- canStaleOnError (memcache.go).  pdate models time.Parse with the
RFC1123 layout, pdur models time.ParseDuration applied to the directive
value with an "s" suffix, and since models clock.since (the injected
timer).  Mirrors the Go control flow: the response directive is examined
first (valueless returns true at once, a malformed value returns false
at once, a numeric value is remembered), then the request directive
likewise (a numeric value overwriting the remembered one); a remembered
nonnegative lifetime is then compared against the age of the Date
header, a missing or unparseable Date returning false. -/
def canStaleOnError (pdate pdur : String → Option Int) (since : Int → Int)
    (respHeaders reqHeaders : Header) : Bool :=
  let respCacheControl := parseCacheControl respHeaders
  let reqCacheControl := parseCacheControl reqHeaders
  let finish : Int → Bool := fun lifetime =>
    if 0 ≤ lifetime then
      match dateOf pdate respHeaders with
      | none => false
      | some date => lifetime > since date
    else false
  let reqStep : Int → Bool := fun lifetime =>
    match ccGet reqCacheControl "stale-if-error" with
    | some staleMaxAge =>
      if staleMaxAge ≠ "" then
        match pdur staleMaxAge with
        | none => false
        | some l => finish l
      else true
    | none => finish lifetime
  match ccGet respCacheControl "stale-if-error" with
  | some staleMaxAge =>
    if staleMaxAge ≠ "" then
      match pdur staleMaxAge with
      | none => false
      | some l => reqStep l
    else true
  | none => reqStep (-1)

/-- getFreshness (memcache.go): fresh, stale or transparent from the
request and cached-response headers.  Only the request headers of the
Go request argument are used, so the model takes the headers directly;
the CachedClient receiver is only used for logging.  pdate, pdur and
since are as in canStaleOnError. -/
def getFreshness (pdate pdur : String → Option Int) (since : Int → Int)
    (reqHeaders respHeaders : Header) : EntryFreshness :=
  let respCacheControl := parseCacheControl respHeaders
  let reqCacheControl := parseCacheControl reqHeaders
  if ccHas reqCacheControl "no-cache" then .transparent
  else if ccHas respCacheControl "no-cache" then .stale
  else if ccHas reqCacheControl "only-if-cached" then .fresh
  else
    match dateOf pdate respHeaders with
    | none => .stale
    | some date =>
      let currentAge := since date
      let lifetime : Int :=
        match ccGet respCacheControl "max-age" with
        | some maxAge => (pdur maxAge).getD 0
        | none =>
          let expiresHeader := hGet respHeaders "Expires"
          if expiresHeader ≠ "" then
            match pdate expiresHeader with
            | none => 0
            | some expires => expires - date
          else 0
      let lifetime : Int :=
        match ccGet reqCacheControl "max-age" with
        | some maxAge => (pdur maxAge).getD 0
        | none => lifetime
      let currentAge : Int :=
        match ccGet reqCacheControl "min-fresh" with
        | some minfresh =>
          match pdur minfresh with
          | some minfreshDuration => currentAge + minfreshDuration
          | none => currentAge
        | none => currentAge
      match ccGet reqCacheControl "max-stale" with
      | some maxstale =>
        if maxstale == "" then .fresh
        else
          let currentAge : Int :=
            match pdur maxstale with
            | some maxstaleDuration => currentAge - maxstaleDuration
            | none => currentAge
          if lifetime > currentAge then .fresh else .stale
      | none => if lifetime > currentAge then .fresh else .stale

/-! ## The request orchestrator (the unnamed main source file)

http.Request is modelled by its method, URL (as the string URL.String()
returns) and headers; http.Response by its status code, headers and body
bytes.  The Cache stores serialized responses (httputil.DumpResponse)
that are read back with http.ReadResponse; the model stores the response
value itself, a dump/parse round trip being the identity, and models a
cache miss as an absent key (a stored value that fails to parse behaves
exactly like a miss in executeRequest and is not modelled separately).
The transport is a function returning none for a transport error.  The
deferred cachingReadCloser store for GET bodies is returned as a pending
(key, response) pair: executeRequest itself does not write it. -/

structure Request where
  method : String
  url : String
  header : Header
deriving DecidableEq, Repr

structure Response where
  statusCode : Int
  header : Header
  body : List Nat
deriving DecidableEq, Repr

abbrev Store := List (String × Response)

def storeLookup (s : Store) (key : String) : Option Response :=
  (s.find? (fun p => p.1 == key)).map (·.2)

def storeSet (s : Store) (key : String) (v : Response) : Store :=
  s.filter (fun p => !(p.1 == key)) ++ [(key, v)]

def storeDelete (s : Store) (key : String) : Store :=
  s.filter (fun p => !(p.1 == key))

/-- The injected collaborators: the two standard-library parsers, the
process clock and the transport. -/
structure Env where
  pdate : String → Option Int
  pdur : String → Option Int
  since : Int → Int
  transport : Request → Option Response

/-- CacheOptions (Debug only controls logging and is dropped). -/
structure CacheOptions where
  ttl : Int
  markCachedResponses : Bool
deriving DecidableEq, Repr

/-- cacheKey: the URL alone for GET, the method prefixed for everything
else. -/
def cacheKey (req : Request) : String :=
  if req.method == "GET" then req.url else req.method ++ " " ++ req.url

/-- The cacheability test of executeRequest: GET or HEAD with no Range
header. -/
def cacheableOf (req : Request) : Bool :=
  (req.method == "GET" || req.method == "HEAD") && hGet req.header "range" == ""

/-- varyMatches: every header named by the cached Vary values must have
the same value on the new request as the echoed X-Varied- header stored
with the entry. -/
def varyMatches (cachedResp : Response) (req : Request) : Bool :=
  (headerAllCommaSepValues cachedResp.header "vary").all fun header0 =>
    let header := canonicalHeaderKey header0
    header == "" || hGet req.header header == hGet cachedResp.header ("X-Varied-" ++ header)

/-- cloneRequest: shallow struct copy with a fresh copy of the header
map; in the pure model the copy is the value itself. -/
def cloneRequest (r : Request) : Request := { r with header := r.header }

/-- The validator-adding block of the stale branch of executeRequest:
copy-on-write clone of the request, setting if-none-match from the
cached etag when the request has no etag header, and if-modified-since
from the cached last-modified when the request has no last-modified
header. -/
def addValidators (req : Request) (cachedResp : Response) : Request :=
  let etag := hGet cachedResp.header "etag"
  let req2a : Option Request :=
    if etag ≠ "" && hGet req.header "etag" == "" then
      let r := cloneRequest req
      some { r with header := hSet r.header "if-none-match" etag }
    else none
  let lastModified := hGet cachedResp.header "last-modified"
  let req2b : Option Request :=
    if lastModified ≠ "" && hGet req.header "last-modified" == "" then
      let r := match req2a with | some x => x | none => cloneRequest req
      some { r with header := hSet r.header "if-modified-since" lastModified }
    else req2a
  match req2b with
  | some req2 => req2
  | none => req

/-- The MarkCachedResponses header stamp on a cache hit. -/
def markResp (opts : CacheOptions) (c : Response) : Response :=
  if opts.markCachedResponses then { c with header := hSet c.header "X-From-Cache" "1" } else c

/-- newGatewayTimeoutResponse: reading "HTTP/1.1 504 Gateway Timeout"
with no headers and no body. -/
def newGatewayTimeoutResponse : Response :=
  { statusCode := 504, header := [], body := [] }

/-- The 304 merge: every end-to-end header of the 304 reply overwrites
the cached copy of that header; status and body stay those of the cached
response. -/
def merge304 (cachedResp resp : Response) : Response :=
  let endToEndHeaders := getEndToEndHeaders resp.header
  { cachedResp with
    header := endToEndHeaders.foldl
      (fun h header => hSetAll h header (hValues resp.header header)) cachedResp.header }

/-- The X-Varied- echo loop of the store step: for every Vary-listed
header name with a nonempty request value, the response gains the echo
header. -/
def addVaryEcho (req : Request) (resp : Response) : Response :=
  (headerAllCommaSepValues resp.header "vary").foldl
    (fun r varyKey0 =>
      let varyKey := canonicalHeaderKey varyKey0
      let fakeHeader := "X-Varied-" ++ varyKey
      let reqValue := hGet req.header varyKey
      if reqValue ≠ "" then { r with header := hSet r.header fakeHeader reqValue } else r)
    resp

/-- The observable outcome of one executeRequest call. -/
structure ExecResult where
  /-- The returned response; none models a returned transport error. -/
  resp : Option Response
  /-- The cache contents when executeRequest returns. -/
  store : Store
  /-- The deferred store the cachingReadCloser will perform at body EOF
  for a GET, as a key/entry pair. -/
  pending : Option (String × Response)
  /-- Whether Transport.RoundTrip was invoked. -/
  calledTransport : Bool
  /-- The request handed to Transport.RoundTrip, when invoked. -/
  sentReq : Option Request
  /-- True for the two early returns that answer straight from cache
  (a fresh entry, or the stale-if-error fallback). -/
  earlyCacheReturn : Bool
  /-- True whenever the returned body is the cached one: the early
  returns plus the 304 merge. -/
  servedFromCache : Bool
deriving DecidableEq, Repr

/-- The final store-or-evict step of executeRequest ("Prepare and store
response if applicable"). -/
def finishStore (store : Store) (req : Request) (key : String) (cacheable : Bool)
    (resp : Response) (called : Bool) (sent : Option Request) (served : Bool) : ExecResult :=
  if cacheable && canStore (parseCacheControl req.header) (parseCacheControl resp.header) then
    if req.method == "GET" then
      { resp := some (addVaryEcho req resp), store := store,
        pending := some (key, addVaryEcho req resp),
        calledTransport := called, sentReq := sent, earlyCacheReturn := false,
        servedFromCache := served }
    else
      { resp := some (addVaryEcho req resp),
        store := storeSet store key (addVaryEcho req resp), pending := none,
        calledTransport := called, sentReq := sent, earlyCacheReturn := false,
        servedFromCache := served }
  else
    { resp := some resp, store := storeDelete store key, pending := none,
      calledTransport := called, sentReq := sent, earlyCacheReturn := false,
      servedFromCache := served }

/-- The transport call and its 304 / stale-if-error / evict aftermath,
for the branch in which a cached response was found (req is the possibly
validator-augmented request, exactly the variable the Go code reuses
afterwards). -/
def execTransportWithCached (env : Env) (store : Store) (req : Request) (key : String)
    (cachedResp : Response) : ExecResult :=
  match env.transport req with
  | some resp =>
    if req.method == "GET" && resp.statusCode == 304 then
      finishStore store req key true (merge304 cachedResp resp) true (some req) true
    else if (decide (500 ≤ resp.statusCode) && req.method == "GET"
        && canStaleOnError env.pdate env.pdur env.since cachedResp.header req.header) then
      { resp := some cachedResp, store := store, pending := none, calledTransport := true,
        sentReq := some req, earlyCacheReturn := true, servedFromCache := true }
    else
      finishStore (if !(resp.statusCode == 200) then storeDelete store key else store)
        req key true resp true (some req) false
  | none =>
    if req.method == "GET"
        && canStaleOnError env.pdate env.pdur env.since cachedResp.header req.header then
      { resp := some cachedResp, store := store, pending := none, calledTransport := true,
        sentReq := some req, earlyCacheReturn := true, servedFromCache := true }
    else
      { resp := none, store := storeDelete store key, pending := none, calledTransport := true,
        sentReq := some req, earlyCacheReturn := false, servedFromCache := false }

/-- The branch of executeRequest in which a cached response was found
for a cacheable request: mark, Vary match, freshness, validators, then
the transport. -/
def execWithCached (env : Env) (store : Store) (req : Request) (key : String)
    (cachedResp : Response) : ExecResult :=
  if varyMatches cachedResp req then
    match getFreshness env.pdate env.pdur env.since req.header cachedResp.header with
    | .fresh =>
      { resp := some cachedResp, store := store, pending := none, calledTransport := false,
        sentReq := none, earlyCacheReturn := true, servedFromCache := true }
    | .stale => execTransportWithCached env store (addValidators req cachedResp) key cachedResp
    | .transparent => execTransportWithCached env store req key cachedResp
  else execTransportWithCached env store req key cachedResp

/-- The branch of executeRequest with no usable stored value (a miss for
a cacheable request, or any non-cacheable request): either the
only-if-cached gateway timeout, or a plain transport call, then the
store step. -/
def execNoCached (env : Env) (store : Store) (req : Request) (key : String)
    (cacheable : Bool) : ExecResult :=
  if ccHas (parseCacheControl req.header) "only-if-cached" then
    finishStore store req key cacheable newGatewayTimeoutResponse false none false
  else
    match env.transport req with
    | none =>
      { resp := none, store := store, pending := none, calledTransport := true,
        sentReq := some req, earlyCacheReturn := false, servedFromCache := false }
    | some resp => finishStore store req key cacheable resp true (some req) false

/-- executeRequest: the whole per-request pipeline.  The TTL option only
flows into Cache.Set calls and the Debug option only into logging, so
the result does not depend on them. -/
def executeRequest (env : Env) (opts : CacheOptions) (store : Store) (req : Request) :
    ExecResult :=
  let key := cacheKey req
  if cacheableOf req then
    match storeLookup store key with
    | some cachedResp => execWithCached env store req key (markResp opts cachedResp)
    | none => execNoCached env store req key true
  else
    execNoCached env (storeDelete store key) req key false

/-! ## MemoryCache (memcache.go)

The in-memory backend: a map from key to response bytes guarded by a
mutex.  Only the sequential semantics of Get/Set/Delete is modelled; the
mutex serialises concurrent calls and adds nothing to it. -/

structure MemoryCache where
  items : List (String × List Nat)
deriving DecidableEq, Repr

/-- Get: the bytes and true when present, nil and false when not. -/
def MemoryCache.Get (mc : MemoryCache) (key : String) : List Nat × Bool :=
  match mc.items.find? (fun p => p.1 == key) with
  | some p => (p.2, true)
  | none => ([], false)

/-- Set: stores resp under key; the ttl argument is accepted and
ignored. -/
def MemoryCache.Set (mc : MemoryCache) (key : String) (resp : List Nat) (_ttl : Int) :
    MemoryCache :=
  { items := mc.items.filter (fun p => !(p.1 == key)) ++ [(key, resp)] }

/-- Delete: removes key. -/
def MemoryCache.Delete (mc : MemoryCache) (key : String) : MemoryCache :=
  { items := mc.items.filter (fun p => !(p.1 == key)) }

def NewMemoryCache : MemoryCache := { items := [] }

/-! ## cachingReadCloser (io.go)

The wrapper forwards each Read to the underlying stream, appends the
returned bytes to its buffer, and calls OnEOF with the whole buffer
whenever the underlying read reported EOF.  The underlying ReadCloser is
modelled as the sequence of results its successive Read calls produce: a
byte chunk plus an EOF flag; reading past the end of the sequence keeps
returning an empty chunk with EOF, as a drained reader does.  The OnEOF
invocations are accumulated as the list of payloads passed to the
callback, in order. -/

structure CRState where
  buf : List Nat
  onEOFCalls : List (List Nat)
deriving DecidableEq, Repr

/-- One Read of the wrapper: append the chunk the underlying stream
returned, then invoke OnEOF with the full buffer if that read reported
EOF. -/
def crRead (st : CRState) (chunk : List Nat) (eof : Bool) : CRState :=
  let buf := st.buf ++ chunk
  { buf := buf, onEOFCalls := if eof then st.onEOFCalls ++ [buf] else st.onEOFCalls }

/-- The result of the i-th Read of the underlying stream. -/
def streamRead (src : List (List Nat × Bool)) (i : Nat) : List Nat × Bool :=
  src.getD i ([], true)

/-- The wrapper state after the caller has performed k Reads. -/
def crRun (src : List (List Nat × Bool)) (k : Nat) : CRState :=
  (List.range k).foldl (fun st i => crRead st (streamRead src i).1 (streamRead src i).2)
    { buf := [], onEOFCalls := [] }

/-- All bytes the underlying stream has produced in its first k reads. -/
def crAccum (src : List (List Nat × Bool)) (k : Nat) : List Nat :=
  ((List.range k).map fun i => (streamRead src i).1).flatten

/-! ## Models transcribed from the words of the specification

These definitions follow the specification text (not the source) and
exist only to be compared with the source-derived definitions above. -/

/-- specGetFreshness: the freshness evaluation exactly as the spec lists
it, steps 1 to 10: the three short-circuits, the Date requirement, the
lifetime from response max-age overriding Expires with malformed or
absent meaning zero, the request max-age override, the min-fresh
addition and max-stale subtraction applied to the age, a valueless
max-stale answering fresh at once, and the final strict
lifetime-exceeds-age comparison. -/
def specGetFreshness (pdate pdur : String → Option Int) (since : Int → Int)
    (reqHeaders respHeaders : Header) : EntryFreshness :=
  let respDir := parseCacheControl respHeaders
  let reqDir := parseCacheControl reqHeaders
  if ccHas reqDir "no-cache" then .transparent
  else if ccHas respDir "no-cache" then .stale
  else if ccHas reqDir "only-if-cached" then .fresh
  else
    match dateOf pdate respHeaders with
    | none => .stale
    | some date =>
      let respLifetime : Int :=
        match ccGet respDir "max-age" with
        | some v => (pdur v).getD 0
        | none =>
          if hGet respHeaders "Expires" ≠ "" then
            ((pdate (hGet respHeaders "Expires")).map (· - date)).getD 0
          else 0
      let lifetime : Int :=
        match ccGet reqDir "max-age" with
        | some v => (pdur v).getD 0
        | none => respLifetime
      let agePlusMinFresh : Int :=
        since date +
          (match ccGet reqDir "min-fresh" with
           | some v => (pdur v).getD 0
           | none => 0)
      if ccGet reqDir "max-stale" = some "" then .fresh
      else
        let adjustedAge : Int :=
          agePlusMinFresh -
            (match ccGet reqDir "max-stale" with
             | some v => (pdur v).getD 0
             | none => 0)
        if lifetime > adjustedAge then .fresh else .stale

/-- specCanStaleOnError: the stale-if-error policy as amended: the
response directive is consulted first and a valueless directive grants
eligibility at once while a malformed value denies it at once; the
request directive is consulted next in the same way, a numeric request
value overriding a numeric response value; a surviving numeric value v
grants eligibility exactly when v strictly exceeds the age of the Date
header, denial when Date is missing or unparseable; absence on both
sides denies. -/
def specCanStaleOnError (pdate pdur : String → Option Int) (since : Int → Int)
    (respHeaders reqHeaders : Header) : Bool :=
  let window : Int → Bool := fun v =>
    0 ≤ v &&
      match dateOf pdate respHeaders with
      | none => false
      | some date => v > since date
  match ccGet (parseCacheControl respHeaders) "stale-if-error",
        ccGet (parseCacheControl reqHeaders) "stale-if-error" with
  | some rv, qs =>
    if rv == "" then true
    else
      match pdur rv with
      | none => false
      | some l =>
        match qs with
        | some qv =>
          if qv == "" then true
          else match pdur qv with
            | none => false
            | some l2 => window l2
        | none => window l
  | none, some qv =>
    if qv == "" then true
    else match pdur qv with
      | none => false
      | some l2 => window l2
  | none, none => false

/-- Splits at the first occurrence of the character: the text before it
and the text after it, or none when the character is absent. -/
def splitFirst (c : Char) : List Char → Option (List Char × List Char)
  | [] => none
  | x :: xs =>
    if x == c then some ([], xs)
    else (splitFirst c xs).map fun p => (x :: p.1, p.2)

/-- parseCacheControlClaim: the directive parser as claim C9 words it:
comma-split, whitespace-trimmed tokens, empty tokens skipped, a token
with an equals sign split exactly once at the first equals sign with the
value running verbatim to the end of the token, a token without one
stored under the empty value. -/
def parseCacheControlClaim (headers : Header) : CacheControl :=
  (splitStr ',' (hGet headers "Cache-Control")).foldl
    (fun cc part0 =>
      let part := trimWS part0
      if part == "" then cc
      else
        match splitFirst '=' part.data with
        | some (before, after) => ccInsert cc (trimWS ⟨before⟩) ⟨after⟩
        | none => ccInsert cc part "")
    []

/-- parseCacheControlAmended: the directive parser as amended: comma
split, space-trimmed tokens, empty tokens skipped; a token containing an
equals sign is split on every equals sign and stored under its
space-trimmed first segment with the comma-trimmed second segment as
value, discarding everything from a second equals sign on; a token
without one is stored under the empty value. -/
def parseCacheControlAmended (headers : Header) : CacheControl :=
  (splitStr ',' (hGet headers "Cache-Control")).foldl
    (fun cc part0 =>
      match (splitOnChar '=' (trimSpaces part0).data).map (fun l => (⟨l⟩ : String)) with
      | [""] => cc
      | [token] => ccInsert cc token ""
      | first :: second :: _ => ccInsert cc (trimSpaces first) (trimCommas second)
      | [] => cc)
    []

/-- A concrete stand-in clock for scenario evaluation: the current
instant is the given epoch second, so since d = now - d. -/
def sinceAt (now : Int) : Int → Int := fun d => now - d

/-! ## Concrete scenarios used by witnesses and counterexamples -/

def optsPlain : CacheOptions := { ttl := 0, markCachedResponses := false }

/-- Transport stub answering every request with a fixed response. -/
def constTransport (r : Response) : Request → Option Response := fun _ => some r

def resp404 : Response := { statusCode := 404, header := [], body := [9] }

def resp200 : Response := { statusCode := 200, header := [], body := [] }

/-- Environment with the concrete stand-in parsers, the clock fixed at
epoch second zero, and a transport answering with the given response. -/
def envTo (r : Response) : Env where
  pdate := parseDateNum
  pdur := parseDurSec
  since := sinceAt 0
  transport := constTransport r

/-- Environment whose transport always fails. -/
def envErr : Env where
  pdate := parseDateNum
  pdur := parseDurSec
  since := sinceAt 0
  transport := fun _ => none

def reqHeadPlain : Request := { method := "HEAD", url := "u", header := [] }

/-- A stored entry that is still fresh at epoch second zero. -/
def freshEntry : Response :=
  { statusCode := 200, header := [("Date", "0"), ("Cache-Control", "max-age=10")],
    body := [1] }

def reqNoStore : Request :=
  { method := "GET", url := "u", header := [("Cache-Control", "no-store")] }

/-- A stored entry whose Vary record requires X-T to equal a. -/
def varyEntry : Response :=
  { statusCode := 200, header := [("Vary", "X-T"), ("X-Varied-X-T", "a"), ("Date", "0")],
    body := [] }

def reqOnlyIfCachedVary : Request :=
  { method := "GET", url := "u",
    header := [("Cache-Control", "only-if-cached"), ("X-T", "b")] }

def reqOnlyIfCached : Request :=
  { method := "GET", url := "u", header := [("Cache-Control", "only-if-cached")] }

/-- A stored entry with an etag and no Date header, hence always stale. -/
def etagEntry : Response := { statusCode := 200, header := [("Etag", "E1")], body := [] }

/-- A stored entry with both validators and no Date header. -/
def validatorEntry : Response :=
  { statusCode := 200, header := [("Etag", "E1"), ("Last-Modified", "L1")], body := [] }

/-- A request that carries an Etag header of its own but no
If-None-Match. -/
def reqEtagHeader : Request := { method := "GET", url := "u", header := [("Etag", "zz")] }

def reqPlainGet : Request := { method := "GET", url := "u", header := [] }

/-! ## Helper lemmas -/

theorem optSubAux (o : Option Int) (a : Int) :
    (match o with
     | some d => a - d
     | none => a) = a - o.getD 0 := by
  cases o <;> simp

theorem optAddAux (pdur : String → Option Int) (o : Option String) (a : Int) :
    (match o with
     | some minfresh =>
       match pdur minfresh with
       | some minfreshDuration => a + minfreshDuration
       | none => a
     | none => a)
      = a + (match o with
             | some v => (pdur v).getD 0
             | none => 0) := by
  cases o with
  | none => simp
  | some m =>
    show _ = a + (pdur m).getD 0
    cases hp : pdur m <;> simp [hp]

theorem expiresAux (pdate : String → Option Int) (ex : String) (date : Int) :
    (match pdate ex with
     | none => (0 : Int)
     | some expires => expires - date)
      = ((pdate ex).map (fun x => x - date)).getD 0 := by
  cases hp : pdate ex <;> simp [hp]

theorem maxStaleAux (pdur : String → Option Int) (o : Option String) (l a : Int) :
    (match o with
     | some maxstale =>
       if maxstale == "" then EntryFreshness.fresh
       else
         if l > (match pdur maxstale with
                 | some maxstaleDuration => a - maxstaleDuration
                 | none => a)
         then EntryFreshness.fresh else EntryFreshness.stale
     | none => if l > a then EntryFreshness.fresh else EntryFreshness.stale)
      = if o = some "" then EntryFreshness.fresh
        else
          if l > a - (match o with
                      | some v => (pdur v).getD 0
                      | none => 0)
          then EntryFreshness.fresh else EntryFreshness.stale := by
  cases o with
  | none => simp
  | some ms =>
    dsimp only
    by_cases hmse : ms = ""
    · simp [hmse]
    · rw [optSubAux (pdur ms) a]
      simp [hmse]

/-! ## Claim C1 -/

/-- C1: getFreshness follows the ordered evaluation the specification
lists, exactly: request no-cache gives transparent, then response
no-cache gives stale, then request only-if-cached gives fresh, then a
missing or unparseable Date gives stale; otherwise the lifetime is the
response max-age overriding Expires with absent or malformed meaning
zero, a request max-age replaces that lifetime, min-fresh is added to
the current age, a valueless max-stale gives fresh at once while a
numeric max-stale is subtracted from the current age, and the result is
fresh exactly when lifetime strictly exceeds the adjusted current age.
Stated as: the source getFreshness agrees with the step-by-step
specification transcription on every input and for every injected
parser and clock. -/
theorem getFreshness_follows_spec_order (pdate pdur : String → Option Int)
    (since : Int → Int) (reqHeaders respHeaders : Header) :
    getFreshness pdate pdur since reqHeaders respHeaders
      = specGetFreshness pdate pdur since reqHeaders respHeaders := by
  simp only [getFreshness, specGetFreshness]
  generalize parseCacheControl reqHeaders = rq
  generalize parseCacheControl respHeaders = rp
  generalize hGet respHeaders "Expires" = ex
  generalize dateOf pdate respHeaders = od
  cases hnc : ccHas rq "no-cache"
  case true => rfl
  case false =>
    cases hnc2 : ccHas rp "no-cache"
    case true => rfl
    case false =>
      cases hoic : ccHas rq "only-if-cached"
      case true => rfl
      case false =>
        cases od with
        | none => rfl
        | some date =>
          dsimp only
          rw [expiresAux pdate ex date, optAddAux pdur (ccGet rq "min-fresh") (since date),
            maxStaleAux pdur (ccGet rq "max-stale")]

/-! ## Claim C7 -/

/-- C7 counterexample: the claim says presence of a valueless
stale-if-error on either side makes the policy eligible, but when the
response carries a malformed stale-if-error value the code returns not
eligible before ever looking at the request directive: here the request
carries the valueless directive yet the result is false. -/
theorem canStaleOnError_valueless_request_counterexample :
    canStaleOnError parseDateNum parseDurSec (sinceAt 0)
        [("Cache-Control", "stale-if-error=zz")]
        [("Cache-Control", "stale-if-error")] = false
      ∧ ccGet (parseCacheControl [("Cache-Control", "stale-if-error")]) "stale-if-error"
          = some "" := by
  constructor
  · decide
  · decide

/-- C7 as amended: the response directive is consulted first and a
valueless response directive grants eligibility at once while a
malformed response value denies it at once, before the request directive
is examined; the request directive is then treated the same way, a
numeric request value overriding a numeric response value; a surviving
numeric value v grants eligibility exactly when v strictly exceeds
now - Date per the injected clock, with a missing or unparseable Date
denying; absence of the directive on both sides denies.  Stated as: the
source canStaleOnError agrees with that policy transcription on every
input and for every injected parser and clock. -/
theorem canStaleOnError_matches_amended_policy (pdate pdur : String → Option Int)
    (since : Int → Int) (respHeaders reqHeaders : Header) :
    canStaleOnError pdate pdur since respHeaders reqHeaders
      = specCanStaleOnError pdate pdur since respHeaders reqHeaders := by
  simp only [canStaleOnError, specCanStaleOnError]
  generalize parseCacheControl reqHeaders = rq
  generalize parseCacheControl respHeaders = rp
  generalize dateOf pdate respHeaders = od
  rcases hr : ccGet rp "stale-if-error" with _ | rv
  case none =>
    rcases hq : ccGet rq "stale-if-error" with _ | qv
    case none => simp
    case some =>
      dsimp only
      by_cases hqe : qv = ""
      · simp [hqe]
      · rcases hpq : pdur qv with _ | lq
        · simp [hqe, hpq]
        · simp only [hqe, hpq, if_false, ite_not, if_neg, ne_eq, not_false_iff]
          by_cases h0 : (0 : Int) ≤ lq <;> cases od <;> simp [hqe, h0]
  case some =>
    dsimp only
    by_cases hre : rv = ""
    · simp [hre]
    · rcases hpr : pdur rv with _ | lr
      · simp [hre, hpr]
      · rcases hq : ccGet rq "stale-if-error" with _ | qv
        · simp only [hre, hpr]
          by_cases h0 : (0 : Int) ≤ lr <;> cases od <;> simp [hre, h0]
        · dsimp only
          by_cases hqe : qv = ""
          · simp [hre, hqe, hpr]
          · rcases hpq : pdur qv with _ | lq
            · simp [hre, hqe, hpr, hpq]
            · simp only [hre, hqe, hpr, hpq]
              by_cases h0 : (0 : Int) ≤ lq <;> cases od <;> simp [hre, hqe, h0]

/-! ## Claim C9 -/

theorem splitOnChar_ne_nil (c : Char) (l : List Char) : splitOnChar c l ≠ [] := by
  induction l with
  | nil => simp [splitOnChar]
  | cons x xs ih =>
    simp only [splitOnChar]
    by_cases hx : x = c
    · simp [hx]
    · simp only [hx, beq_iff_eq, if_false, Bool.false_eq_true]
      cases hs : splitOnChar c xs with
      | nil => simp
      | cons h t => simp

theorem splitOnChar_not_contains (c : Char) (l : List Char) (h : l.contains c = false) :
    splitOnChar c l = [l] := by
  induction l with
  | nil => rfl
  | cons x xs ih =>
    simp only [List.contains_cons, Bool.or_eq_false_iff, beq_eq_false_iff_ne, ne_eq] at h
    have hx : ¬(x = c) := fun hh => h.1 hh.symm
    simp only [splitOnChar, beq_iff_eq, hx, if_false, Bool.false_eq_true]
    rw [ih h.2]

theorem splitOnChar_contains (c : Char) (l : List Char) (h : l.contains c = true) :
    ∃ a b t, splitOnChar c l = a :: b :: t := by
  induction l with
  | nil => simp at h
  | cons x xs ih =>
    by_cases hx : x = c
    · simp only [splitOnChar, hx, beq_self_eq_true, if_true]
      rcases hs : splitOnChar c xs with _ | ⟨b, t⟩
      · exact absurd hs (splitOnChar_ne_nil c xs)
      · exact ⟨[], b, t, rfl⟩
    · simp only [List.contains_cons, beq_iff_eq] at h
      rcases Bool.or_eq_true_iff.mp h with h1 | h2
      · exact absurd ((beq_iff_eq).mp h1).symm hx
      · obtain ⟨a, b, t, hs⟩ := ih h2
        refine ⟨x :: a, b, t, ?_⟩
        simp only [splitOnChar, beq_iff_eq, hx, if_false, hs, Bool.false_eq_true]

/-- The per-token action of the source parser agrees with the amended
per-token description. -/
theorem parseCacheControl_step_eq (cc : CacheControl) (part0 : String) :
    (let part := trimSpaces part0
     if part == "" then cc
     else if part.data.contains '=' then
       let keyVal := splitStr '=' part
       ccInsert cc (trimSpaces (keyVal.getD 0 "")) (trimCommas (keyVal.getD 1 ""))
     else ccInsert cc part "")
      = (match (splitOnChar '=' (trimSpaces part0).data).map (fun l => (⟨l⟩ : String)) with
         | [""] => cc
         | [token] => ccInsert cc token ""
         | first :: second :: _ => ccInsert cc (trimSpaces first) (trimCommas second)
         | [] => cc) := by
  dsimp only
  by_cases hp : trimSpaces part0 = ""
  · rw [hp]
    simp [splitOnChar]
  · have hbe : (trimSpaces part0 == "") = false := by simp [hp]
    by_cases he : (trimSpaces part0).data.contains '=' = true
    · obtain ⟨a, b, t, hs⟩ := splitOnChar_contains '=' _ he
      simp only [hbe, Bool.false_eq_true, if_false, he, if_true, splitStr, hs, List.map_cons,
        List.getD_cons_zero, List.getD_cons_succ]
    · have he2 : (trimSpaces part0).data.contains '=' = false := by
        cases hcc : (trimSpaces part0).data.contains '=' with
        | true => exact absurd hcc he
        | false => rfl
      have hs := splitOnChar_not_contains '=' _ he2
      simp only [hbe, Bool.false_eq_true, if_false, he2, splitStr, hs, List.map_cons,
        List.map_nil]

theorem foldl_step_congr {α β : Type} (f g : α → β → α) (h : ∀ a b, f a b = g a b) :
    ∀ (l : List β) (a : α), l.foldl f a = l.foldl g a := by
  intro l
  induction l with
  | nil => intro a; rfl
  | cons x xs ih => intro a; rw [List.foldl_cons, List.foldl_cons, h, ih]

/-- C9 counterexample: on the header value consisting of a tab followed
by a=b=c, the source parser splits on every equals sign and keeps only
the segment between the first two, and trims only spaces, so it stores
the pair (tab a, b); the parser the claim describes would store
(a, b=c).  The two parsers therefore disagree on this input. -/
theorem parseCacheControl_split_counterexample :
    parseCacheControl [("Cache-Control", "\ta=b=c")] = [("\ta", "b")]
      ∧ parseCacheControlClaim [("Cache-Control", "\ta=b=c")] = [("a", "b=c")]
      ∧ ¬([("\ta", "b")] : CacheControl) = [("a", "b=c")] := by
  refine ⟨by decide, by decide, by decide⟩

/-- C9 as amended: the parser splits the header value on commas, trims
spaces (not all whitespace) from each token, ignores empty tokens,
stores a token without an equals sign under an empty value, and splits a
token containing an equals sign on every equals sign, storing under the
space-trimmed first segment the comma-trimmed second segment — the text
between the first and second equals signs — discarding anything beyond a
second equals sign; an absent header and an empty header both give the
empty mapping.  Stated as: the source parser equals the amended
transcription on every header. -/
theorem parseCacheControl_matches_amended_tokenization (headers : Header) :
    parseCacheControl headers = parseCacheControlAmended headers := by
  unfold parseCacheControl parseCacheControlAmended
  exact foldl_step_congr _ _ (fun cc part0 => parseCacheControl_step_eq cc part0) _ []

/-! ## Claim C6 -/

/-- C6 counterexample: draining a one-chunk stream and then reading
twice more after end-of-stream invokes the completion callback twice,
not exactly once as the claim states. -/
theorem cachingReadCloser_repeated_eof_counterexample :
    (crRun [([1], false)] 3).onEOFCalls = [[1], [1]]
      ∧ ¬((crRun [([1], false)] 3).onEOFCalls.length = 1) := by
  refine ⟨by decide, by decide⟩

/-- C6 as amended: the completion callback is invoked once per read on
which the underlying stream reports end-of-stream — never before the
first such read — and each invocation receives the full byte sequence
accumulated up to and including that read; a caller that keeps reading
after end-of-stream therefore sees one further invocation per extra
read, each carrying the full content.  Stated as the exact
characterization of the callback payloads after any number of reads. -/
theorem cachingReadCloser_onEOF_characterization (src : List (List Nat × Bool)) (k : Nat) :
    (crRun src k).buf = crAccum src k
      ∧ (crRun src k).onEOFCalls
          = (List.range k).filterMap
              (fun i => if (streamRead src i).2 then some (crAccum src (i + 1)) else none) := by
  induction k with
  | zero => exact ⟨rfl, rfl⟩
  | succ n ih =>
    have hrun : crRun src (n + 1)
        = crRead (crRun src n) (streamRead src n).1 (streamRead src n).2 := by
      unfold crRun
      rw [List.range_succ, List.foldl_append]
      rfl
    have haccum : crAccum src (n + 1) = crAccum src n ++ (streamRead src n).1 := by
      unfold crAccum
      rw [List.range_succ, List.map_append, List.flatten_append]
      simp
    constructor
    · rw [hrun]
      unfold crRead
      simp [ih.1, haccum]
    · rw [hrun]
      unfold crRead
      rw [List.range_succ, List.filterMap_append]
      cases he : (streamRead src n).2 <;> simp [he, ih.1, ih.2, haccum]

/-! ## Claim C8 -/

/-- C8 counterexample: a HEAD request does not use the URL alone as its
cache key; the method is prefixed. -/
theorem cacheKey_head_counterexample :
    cacheKey { method := "HEAD", url := "u", header := [] } = "HEAD u"
      ∧ ¬(cacheKey { method := "HEAD", url := "u", header := [] }
            = ({ method := "HEAD", url := "u", header := [] } : Request).url) := by
  refine ⟨by decide, by decide⟩

/-- C8 as amended: the cache key is the absolute URL alone only for GET;
every other method, HEAD included, prefixes the method and a space to
the URL.  Cache equivalence is key equality by construction, since every
cache access in executeRequest goes through this key. -/
theorem cacheKey_only_get_bare_url (req : Request) :
    (req.method = "GET" → cacheKey req = req.url)
      ∧ (¬(req.method = "GET") → cacheKey req = req.method ++ " " ++ req.url) := by
  constructor <;> intro h <;> simp [cacheKey, h]

/-- Witness for the amended C8 theorem at a concrete HEAD request. -/
theorem cacheKey_only_get_bare_url_witness :
    cacheKey { method := "HEAD", url := "u", header := [] } = "HEAD" ++ " " ++ "u" :=
  (cacheKey_only_get_bare_url { method := "HEAD", url := "u", header := [] }).2 (by decide)

/-! ## Claim C10 -/

theorem find?_filter_excl {α : Type} (l : List α) (p q : α → Bool)
    (h : ∀ a, p a = true → q a = false) : (l.filter q).find? p = none := by
  induction l with
  | nil => rfl
  | cons x xs ih =>
    by_cases hx : p x
    · have hq := h x hx
      simp [List.filter_cons, hq, ih]
    · by_cases hqx : q x <;> simp [List.filter_cons, hqx, List.find?_cons, hx, ih]

theorem find?_append_none {α : Type} (l1 l2 : List α) (p : α → Bool)
    (h : l1.find? p = none) : (l1 ++ l2).find? p = l2.find? p := by
  induction l1 with
  | nil => rfl
  | cons x xs ih =>
    rw [List.find?_cons] at h
    by_cases hx : p x
    · simp [hx] at h
    · simp only [hx] at h
      simp [List.cons_append, List.find?_cons, hx, ih h]

/-- C10: storing bytes under a key in the in-memory cache and reading
the key back returns exactly those bytes with found true, for every ttl
argument; moreover the ttl argument has no effect at all on the
resulting cache, so no later Get can observe it: the backend never
enforces expiry. -/
theorem memoryCache_set_then_get (m : MemoryCache) (key : String) (resp : List Nat)
    (ttl : Int) :
    (MemoryCache.Set m key resp ttl).Get key = (resp, true)
      ∧ ∀ ttl2, MemoryCache.Set m key resp ttl = MemoryCache.Set m key resp ttl2 := by
  constructor
  · unfold MemoryCache.Set MemoryCache.Get
    rw [find?_append_none _ _ _ (find?_filter_excl _ _ _ (fun a ha => by simpa using ha))]
    simp [List.find?_cons]
  · intro ttl2
    rfl


theorem find?_filter_imp {α : Type} (l : List α) (p q : α → Bool)
    (h : ∀ a, p a = true → q a = true) : (l.filter q).find? p = l.find? p := by
  induction l with
  | nil => rfl
  | cons x xs ih =>
    by_cases hx : p x
    · have hq := h x hx
      simp [List.filter_cons, hq, List.find?_cons, hx, ih]
    · by_cases hqx : q x <;> simp [List.filter_cons, hqx, List.find?_cons, hx, ih]

theorem find?_append_some {α : Type} (l1 l2 : List α) (p : α → Bool) (a : α)
    (h : l1.find? p = some a) : (l1 ++ l2).find? p = some a := by
  induction l1 with
  | nil => simp at h
  | cons x xs ih =>
    rw [List.find?_cons] at h
    by_cases hx : p x
    · simp only [hx, if_true] at h
      simp [List.cons_append, List.find?_cons, hx, h]
    · simp only [hx] at h
      simp [List.cons_append, List.find?_cons, hx, ih h]

theorem storeLookup_delete_self (s : Store) (key : String) :
    storeLookup (storeDelete s key) key = none := by
  unfold storeLookup storeDelete
  rw [find?_filter_excl _ _ _ (fun a ha => by simpa using ha)]
  rfl

theorem storeLookup_set_self (s : Store) (key : String) (v : Response) :
    storeLookup (storeSet s key v) key = some v := by
  unfold storeLookup storeSet
  rw [find?_append_none _ _ _ (find?_filter_excl _ _ _ (fun a ha => by simpa using ha))]
  simp [List.find?_cons]

theorem nameEq_lower (a b : String) : nameEq a b = true ↔ lowerStr a = lowerStr b := by
  unfold nameEq
  exact beq_iff_eq

theorem hGet_hSet_same (h : Header) (setname v name : String)
    (hn : nameEq name setname = true) : hGet (hSet h setname v) name = v := by
  unfold hGet hSet
  rw [find?_append_none _ _ _ (find?_filter_excl _ _ _ (fun a ha => by
    have h1 := (nameEq_lower _ _).mp ha
    have h2 := (nameEq_lower _ _).mp hn
    have : nameEq a.1 setname = true := (nameEq_lower _ _).mpr (h1.trans h2)
    simp [this]))]
  have : nameEq setname name = true := by
    exact (nameEq_lower _ _).mpr ((nameEq_lower _ _).mp hn).symm
  simp [List.find?_cons, this]

theorem hGet_hSet_other (h : Header) (setname v name : String)
    (hn : nameEq name setname = false) : hGet (hSet h setname v) name = hGet h name := by
  unfold hGet hSet
  have hfi : ((h.filter (fun p => !(nameEq p.1 setname))).find? (fun p => nameEq p.1 name))
      = h.find? (fun p => nameEq p.1 name) := by
    apply find?_filter_imp
    intro a ha
    have h1 := (nameEq_lower _ _).mp ha
    by_cases hs : nameEq a.1 setname = true
    · exfalso
      have h2 := (nameEq_lower _ _).mp hs
      have : nameEq name setname = true := (nameEq_lower _ _).mpr (h1.symm.trans h2)
      rw [this] at hn
      exact Bool.true_eq_false.mp hn
    · simp [Bool.eq_false_iff.mpr hs]
  cases hf : h.find? (fun p => nameEq p.1 name) with
  | some a =>
    rw [find?_append_some _ _ _ _ (by rw [hfi, hf])]
  | none =>
    rw [find?_append_none _ _ _ (by rw [hfi, hf])]
    have hsn : nameEq setname name = false := by
      cases hcc : nameEq setname name with
      | false => rfl
      | true =>
        exfalso
        have h2 : nameEq name setname = true :=
          (nameEq_lower _ _).mpr ((nameEq_lower _ _).mp hcc).symm
        rw [h2] at hn
        exact Bool.noConfusion hn
    simp [List.find?_cons, hsn]

end Httpcache

namespace Httpcache

theorem parseCacheControl_congr (h1 h2 : Header)
    (hcc : hGet h1 "Cache-Control" = hGet h2 "Cache-Control") :
    parseCacheControl h1 = parseCacheControl h2 := by
  unfold parseCacheControl
  rw [hcc]

/-- The synthesized echo header names never collide with Cache-Control:
their lower-cased form starts with the letter x. -/
theorem nameEq_cc_xvaried (s : String) : nameEq "Cache-Control" ("X-Varied-" ++ s) = false := by
  cases hcc : nameEq "Cache-Control" ("X-Varied-" ++ s) with
  | false => rfl
  | true =>
    exfalso
    have hl := (nameEq_lower _ _).mp hcc
    have hdata := congrArg String.data hl
    have hxd : ("X-Varied-" ++ s).data = "X-Varied-".data ++ s.data := rfl
    simp only [lowerStr, hxd, List.map_append] at hdata
    rw [show "X-Varied-".data.map Char.toLower = 'x' :: "-varied-".data from by decide] at hdata
    rw [show "Cache-Control".data.map Char.toLower = 'c' :: "ache-control".data from by
      decide] at hdata
    rw [List.cons_append] at hdata
    simp at hdata

theorem addValidators_method (req : Request) (c : Response) :
    (addValidators req c).method = req.method := by
  unfold addValidators cloneRequest
  by_cases h1 : (decide (hGet c.header "etag" ≠ "") && (hGet req.header "etag" == "")) = true <;>
    by_cases h2 : (decide (hGet c.header "last-modified" ≠ "")
        && (hGet req.header "last-modified" == "")) = true <;>
    simp only [Bool.not_eq_true] at h1 h2 <;>
    simp only [h1, h2] <;>
    rfl

theorem addValidators_hGet_cc (req : Request) (c : Response) :
    hGet (addValidators req c).header "Cache-Control" = hGet req.header "Cache-Control" := by
  unfold addValidators cloneRequest
  by_cases h1 : (decide (hGet c.header "etag" ≠ "") && (hGet req.header "etag" == "")) = true
  · by_cases h2 : (decide (hGet c.header "last-modified" ≠ "")
        && (hGet req.header "last-modified" == "")) = true
    · simp only [h1, h2]
      show hGet (hSet (hSet req.header "if-none-match" (hGet c.header "etag"))
        "if-modified-since" (hGet c.header "last-modified")) "Cache-Control" = _
      rw [hGet_hSet_other _ _ _ _ (by decide), hGet_hSet_other _ _ _ _ (by decide)]
    · simp only [Bool.not_eq_true] at h2
      simp only [h1, h2]
      show hGet (hSet req.header "if-none-match" (hGet c.header "etag")) "Cache-Control" = _
      rw [hGet_hSet_other _ _ _ _ (by decide)]
  · by_cases h2 : (decide (hGet c.header "last-modified" ≠ "")
        && (hGet req.header "last-modified" == "")) = true
    · simp only [Bool.not_eq_true] at h1
      simp only [h1, h2]
      show hGet (hSet req.header "if-modified-since" (hGet c.header "last-modified"))
        "Cache-Control" = _
      rw [hGet_hSet_other _ _ _ _ (by decide)]
    · simp only [Bool.not_eq_true] at h1 h2
      simp only [h1, h2]
      rfl

theorem addValidators_inm (req : Request) (c : Response)
    (he : ¬(hGet c.header "etag" = "")) (hre : hGet req.header "etag" = "") :
    hGet (addValidators req c).header "if-none-match" = hGet c.header "etag" := by
  unfold addValidators cloneRequest
  have h1 : (decide (hGet c.header "etag" ≠ "") && (hGet req.header "etag" == "")) = true := by
    simp [he, hre]
  by_cases h2 : (decide (hGet c.header "last-modified" ≠ "")
      && (hGet req.header "last-modified" == "")) = true
  · simp only [h1, h2]
    show hGet (hSet (hSet req.header "if-none-match" (hGet c.header "etag"))
      "if-modified-since" (hGet c.header "last-modified")) "if-none-match" = _
    rw [hGet_hSet_other _ _ _ _ (by decide), hGet_hSet_same _ _ _ _ (by decide)]
  · simp only [Bool.not_eq_true] at h2
    simp only [h1, h2]
    show hGet (hSet req.header "if-none-match" (hGet c.header "etag")) "if-none-match" = _
    rw [hGet_hSet_same _ _ _ _ (by decide)]

theorem addValidators_ims (req : Request) (c : Response)
    (hl : ¬(hGet c.header "last-modified" = ""))
    (hrl : hGet req.header "last-modified" = "") :
    hGet (addValidators req c).header "if-modified-since"
      = hGet c.header "last-modified" := by
  unfold addValidators cloneRequest
  have h2 : (decide (hGet c.header "last-modified" ≠ "")
      && (hGet req.header "last-modified" == "")) = true := by
    simp [hl, hrl]
  by_cases h1 : (decide (hGet c.header "etag" ≠ "") && (hGet req.header "etag" == "")) = true
  · simp only [h1, h2]
    show hGet (hSet (hSet req.header "if-none-match" (hGet c.header "etag"))
      "if-modified-since" (hGet c.header "last-modified")) "if-modified-since" = _
    rw [hGet_hSet_same _ _ _ _ (by decide)]
  · simp only [Bool.not_eq_true] at h1
    simp only [h1, h2]
    show hGet (hSet req.header "if-modified-since" (hGet c.header "last-modified"))
      "if-modified-since" = _
    rw [hGet_hSet_same _ _ _ _ (by decide)]

end Httpcache

namespace Httpcache

theorem varyEchoFold_preserves (req : Request) :
    ∀ (L : List String) (r : Response),
      ((L.foldl
          (fun r varyKey0 =>
            let varyKey := canonicalHeaderKey varyKey0
            let fakeHeader := "X-Varied-" ++ varyKey
            let reqValue := hGet req.header varyKey
            if reqValue ≠ "" then { r with header := hSet r.header fakeHeader reqValue }
            else r)
          r).statusCode = r.statusCode)
      ∧ ((L.foldl
          (fun r varyKey0 =>
            let varyKey := canonicalHeaderKey varyKey0
            let fakeHeader := "X-Varied-" ++ varyKey
            let reqValue := hGet req.header varyKey
            if reqValue ≠ "" then { r with header := hSet r.header fakeHeader reqValue }
            else r)
          r).body = r.body)
      ∧ hGet (L.foldl
          (fun r varyKey0 =>
            let varyKey := canonicalHeaderKey varyKey0
            let fakeHeader := "X-Varied-" ++ varyKey
            let reqValue := hGet req.header varyKey
            if reqValue ≠ "" then { r with header := hSet r.header fakeHeader reqValue }
            else r)
          r).header "Cache-Control" = hGet r.header "Cache-Control" := by
  intro L
  induction L with
  | nil => intro r; exact ⟨rfl, rfl, rfl⟩
  | cons x xs ih =>
    intro r
    rw [List.foldl_cons]
    dsimp only
    by_cases hv : hGet req.header (canonicalHeaderKey x) ≠ ""
    · rw [if_pos hv]
      refine ⟨(ih _).1, (ih _).2.1, ?_⟩
      rw [(ih _).2.2]
      exact hGet_hSet_other _ _ _ _ (nameEq_cc_xvaried (canonicalHeaderKey x))
    · rw [if_neg hv]
      exact ih r

theorem addVaryEcho_preserves (req : Request) (r : Response) :
    (addVaryEcho req r).statusCode = r.statusCode
      ∧ (addVaryEcho req r).body = r.body
      ∧ hGet (addVaryEcho req r).header "Cache-Control" = hGet r.header "Cache-Control" := by
  unfold addVaryEcho
  exact varyEchoFold_preserves req (headerAllCommaSepValues r.header "vary") r

theorem addVaryEcho_parseCC (req : Request) (r : Response) :
    parseCacheControl (addVaryEcho req r).header = parseCacheControl r.header :=
  parseCacheControl_congr _ _ (addVaryEcho_preserves req r).2.2

theorem addVaryEcho_no_vary (req : Request) (r : Response)
    (h : headerAllCommaSepValues r.header "vary" = []) : addVaryEcho req r = r := by
  unfold addVaryEcho
  rw [h]
  rfl

theorem addVaryEcho_gateway (req : Request) :
    addVaryEcho req newGatewayTimeoutResponse = newGatewayTimeoutResponse :=
  addVaryEcho_no_vary req _ rfl

end Httpcache

namespace Httpcache

theorem finishStore_fields (store : Store) (req : Request) (key : String) (cacheable : Bool)
    (resp : Response) (called : Bool) (sent : Option Request) (served : Bool) :
    (finishStore store req key cacheable resp called sent served).calledTransport = called
      ∧ (finishStore store req key cacheable resp called sent served).sentReq = sent
      ∧ (finishStore store req key cacheable resp called sent served).earlyCacheReturn = false
      ∧ (finishStore store req key cacheable resp called sent served).servedFromCache
          = served := by
  unfold finishStore
  (repeat' split) <;> exact ⟨rfl, rfl, rfl, rfl⟩

theorem finishStore_resp (store : Store) (req : Request) (key : String) (cacheable : Bool)
    (resp : Response) (called : Bool) (sent : Option Request) (served : Bool) :
    ∃ r2, (finishStore store req key cacheable resp called sent served).resp = some r2
      ∧ r2.statusCode = resp.statusCode
      ∧ parseCacheControl r2.header = parseCacheControl resp.header := by
  unfold finishStore
  by_cases hcs : (cacheable
      && canStore (parseCacheControl req.header) (parseCacheControl resp.header)) = true
  · simp only [hcs]
    by_cases hm : (req.method == "GET") = true <;> simp only [hm, if_true, if_false] <;>
      exact ⟨addVaryEcho req resp, rfl, (addVaryEcho_preserves req resp).1,
        addVaryEcho_parseCC req resp⟩
  · simp only [Bool.not_eq_true] at hcs
    simp only [hcs]
    exact ⟨resp, rfl, rfl, rfl⟩

theorem finishStore_no_store (store : Store) (req : Request) (key : String)
    (cacheable : Bool) (resp : Response) (called : Bool) (sent : Option Request)
    (served : Bool)
    (hns : ccHas (parseCacheControl req.header) "no-store" = true
      ∨ ∃ r, (finishStore store req key cacheable resp called sent served).resp = some r
          ∧ ccHas (parseCacheControl r.header) "no-store" = true) :
    storeLookup (finishStore store req key cacheable resp called sent served).store key = none
      ∧ (finishStore store req key cacheable resp called sent served).pending = none := by
  by_cases hcs : (cacheable
      && canStore (parseCacheControl req.header) (parseCacheControl resp.header)) = true
  · exfalso
    have hcs2 := (Bool.and_eq_true .. ).mp hcs
    have hno : ccHas (parseCacheControl resp.header) "no-store" = false
        ∧ ccHas (parseCacheControl req.header) "no-store" = false := by
      have := hcs2.2
      unfold canStore at this
      simpa using this
    rcases hns with hq | ⟨r, hr, hrns⟩
    · rw [hno.2] at hq
      exact Bool.noConfusion hq
    · obtain ⟨r2, hr2, _, hpcc⟩ := finishStore_resp store req key cacheable resp called
        sent served
      rw [hr2] at hr
      have hrr : r = r2 := (Option.some.injEq .. ).mp hr.symm
      rw [hrr, hpcc, hno.1] at hrns
      exact Bool.noConfusion hrns
  · simp only [Bool.not_eq_true] at hcs
    unfold finishStore
    simp only [hcs]
    exact ⟨storeLookup_delete_self store key, rfl⟩

theorem finishStore_get_absent (store : Store) (req : Request) (key : String)
    (cacheable : Bool) (resp : Response) (called : Bool) (sent : Option Request)
    (served : Bool) (hm : (req.method == "GET") = true)
    (habs : storeLookup store key = none) :
    storeLookup (finishStore store req key cacheable resp called sent served).store key
      = none := by
  unfold finishStore
  by_cases hcs : (cacheable
      && canStore (parseCacheControl req.header) (parseCacheControl resp.header)) = true
  · simp only [hcs, hm, if_true]
    exact habs
  · simp only [Bool.not_eq_true] at hcs
    simp only [hcs]
    exact storeLookup_delete_self store key

theorem finishStore_not_canstore (store : Store) (req : Request) (key : String)
    (cacheable : Bool) (resp : Response) (called : Bool) (sent : Option Request)
    (served : Bool)
    (hcs : (cacheable
      && canStore (parseCacheControl req.header) (parseCacheControl resp.header)) = false) :
    storeLookup (finishStore store req key cacheable resp called sent served).store key
      = none := by
  unfold finishStore
  simp only [hcs]
  exact storeLookup_delete_self store key

theorem finishStore_nonget_store (store : Store) (req : Request) (key : String)
    (resp : Response) (called : Bool) (sent : Option Request) (served : Bool)
    (hm : (req.method == "GET") = false)
    (hcs : canStore (parseCacheControl req.header) (parseCacheControl resp.header) = true) :
    ∃ r2, (finishStore store req key true resp called sent served).resp = some r2
      ∧ storeLookup (finishStore store req key true resp called sent served).store key
          = some r2 := by
  unfold finishStore
  simp only [hcs, hm, Bool.and_true, Bool.true_and, if_true, if_false, Bool.false_eq_true]
  exact ⟨addVaryEcho req resp, rfl, storeLookup_set_self store key (addVaryEcho req resp)⟩


theorem finishStore_calledTransport (store : Store) (req : Request) (key : String)
    (cacheable : Bool) (resp : Response) (called : Bool) (sent : Option Request)
    (served : Bool) :
    (finishStore store req key cacheable resp called sent served).calledTransport = called := by
  unfold finishStore
  (repeat' split) <;> rfl

theorem finishStore_sentReq (store : Store) (req : Request) (key : String)
    (cacheable : Bool) (resp : Response) (called : Bool) (sent : Option Request)
    (served : Bool) :
    (finishStore store req key cacheable resp called sent served).sentReq = sent := by
  unfold finishStore
  (repeat' split) <;> rfl

theorem finishStore_early (store : Store) (req : Request) (key : String)
    (cacheable : Bool) (resp : Response) (called : Bool) (sent : Option Request)
    (served : Bool) :
    (finishStore store req key cacheable resp called sent served).earlyCacheReturn = false := by
  unfold finishStore
  (repeat' split) <;> rfl

theorem finishStore_served (store : Store) (req : Request) (key : String)
    (cacheable : Bool) (resp : Response) (called : Bool) (sent : Option Request)
    (served : Bool) :
    (finishStore store req key cacheable resp called sent served).servedFromCache = served := by
  unfold finishStore
  (repeat' split) <;> rfl

theorem etc_eq_304 (env : Env) (store : Store) (req : Request) (key : String)
    (c r0 : Response) (ht : env.transport req = some r0)
    (h304 : (req.method == "GET" && (r0.statusCode == 304)) = true) :
    execTransportWithCached env store req key c
      = finishStore store req key true (merge304 c r0) true (some req) true := by
  unfold execTransportWithCached
  rw [ht]
  dsimp only
  rw [if_pos h304]

theorem etc_eq_sie (env : Env) (store : Store) (req : Request) (key : String)
    (c r0 : Response) (ht : env.transport req = some r0)
    (h304 : (req.method == "GET" && (r0.statusCode == 304)) = false)
    (hsie : (decide (500 ≤ r0.statusCode) && req.method == "GET"
      && canStaleOnError env.pdate env.pdur env.since c.header req.header) = true) :
    execTransportWithCached env store req key c
      = { resp := some c, store := store, pending := none, calledTransport := true,
          sentReq := some req, earlyCacheReturn := true, servedFromCache := true } := by
  unfold execTransportWithCached
  rw [ht]
  dsimp only
  rw [if_neg (by rw [h304]; simp), if_pos hsie]

theorem etc_eq_else (env : Env) (store : Store) (req : Request) (key : String)
    (c r0 : Response) (ht : env.transport req = some r0)
    (h304 : (req.method == "GET" && (r0.statusCode == 304)) = false)
    (hsie : (decide (500 ≤ r0.statusCode) && req.method == "GET"
      && canStaleOnError env.pdate env.pdur env.since c.header req.header) = false) :
    execTransportWithCached env store req key c
      = finishStore (if !(r0.statusCode == 200) then storeDelete store key else store)
          req key true r0 true (some req) false := by
  unfold execTransportWithCached
  rw [ht]
  dsimp only
  rw [if_neg (by rw [h304]; simp), if_neg (by rw [hsie]; simp)]

theorem etc_eq_err_sie (env : Env) (store : Store) (req : Request) (key : String)
    (c : Response) (ht : env.transport req = none)
    (hsie : (req.method == "GET"
      && canStaleOnError env.pdate env.pdur env.since c.header req.header) = true) :
    execTransportWithCached env store req key c
      = { resp := some c, store := store, pending := none, calledTransport := true,
          sentReq := some req, earlyCacheReturn := true, servedFromCache := true } := by
  unfold execTransportWithCached
  rw [ht]
  dsimp only
  rw [if_pos hsie]

theorem etc_eq_err (env : Env) (store : Store) (req : Request) (key : String)
    (c : Response) (ht : env.transport req = none)
    (hsie : (req.method == "GET"
      && canStaleOnError env.pdate env.pdur env.since c.header req.header) = false) :
    execTransportWithCached env store req key c
      = { resp := none, store := storeDelete store key, pending := none,
          calledTransport := true, sentReq := some req, earlyCacheReturn := false,
          servedFromCache := false } := by
  unfold execTransportWithCached
  rw [ht]
  dsimp only
  rw [if_neg (by rw [hsie]; simp)]

theorem exnc_eq_oic (env : Env) (store : Store) (req : Request) (key : String)
    (cacheable : Bool)
    (hoic : ccHas (parseCacheControl req.header) "only-if-cached" = true) :
    execNoCached env store req key cacheable
      = finishStore store req key cacheable newGatewayTimeoutResponse false none false := by
  unfold execNoCached
  rw [if_pos hoic]

theorem exnc_eq_err (env : Env) (store : Store) (req : Request) (key : String)
    (cacheable : Bool)
    (hoic : ccHas (parseCacheControl req.header) "only-if-cached" = false)
    (ht : env.transport req = none) :
    execNoCached env store req key cacheable
      = { resp := none, store := store, pending := none, calledTransport := true,
          sentReq := some req, earlyCacheReturn := false, servedFromCache := false } := by
  unfold execNoCached
  rw [if_neg (by rw [hoic]; simp), ht]

theorem exnc_eq_resp (env : Env) (store : Store) (req : Request) (key : String)
    (cacheable : Bool) (r0 : Response)
    (hoic : ccHas (parseCacheControl req.header) "only-if-cached" = false)
    (ht : env.transport req = some r0) :
    execNoCached env store req key cacheable
      = finishStore store req key cacheable r0 true (some req) false := by
  unfold execNoCached
  rw [if_neg (by rw [hoic]; simp), ht]

theorem exwc_eq_fresh (env : Env) (store : Store) (req : Request) (key : String)
    (c : Response) (hv : varyMatches c req = true)
    (hf : getFreshness env.pdate env.pdur env.since req.header c.header
      = EntryFreshness.fresh) :
    execWithCached env store req key c
      = { resp := some c, store := store, pending := none, calledTransport := false,
          sentReq := none, earlyCacheReturn := true, servedFromCache := true } := by
  unfold execWithCached
  rw [if_pos hv, hf]

theorem exwc_eq_stale (env : Env) (store : Store) (req : Request) (key : String)
    (c : Response) (hv : varyMatches c req = true)
    (hf : getFreshness env.pdate env.pdur env.since req.header c.header
      = EntryFreshness.stale) :
    execWithCached env store req key c
      = execTransportWithCached env store (addValidators req c) key c := by
  unfold execWithCached
  rw [if_pos hv, hf]

theorem exwc_eq_transparent (env : Env) (store : Store) (req : Request) (key : String)
    (c : Response) (hv : varyMatches c req = true)
    (hf : getFreshness env.pdate env.pdur env.since req.header c.header
      = EntryFreshness.transparent) :
    execWithCached env store req key c = execTransportWithCached env store req key c := by
  unfold execWithCached
  rw [if_pos hv, hf]

theorem exwc_eq_nomatch (env : Env) (store : Store) (req : Request) (key : String)
    (c : Response) (hv : varyMatches c req = false) :
    execWithCached env store req key c = execTransportWithCached env store req key c := by
  unfold execWithCached
  rw [if_neg (by rw [hv]; simp)]

theorem exr_eq_hit (env : Env) (opts : CacheOptions) (store : Store) (req : Request)
    (c0 : Response) (hc : cacheableOf req = true)
    (hl : storeLookup store (cacheKey req) = some c0) :
    executeRequest env opts store req
      = execWithCached env store req (cacheKey req) (markResp opts c0) := by
  unfold executeRequest
  rw [if_pos hc, hl]

theorem exr_eq_miss (env : Env) (opts : CacheOptions) (store : Store) (req : Request)
    (hc : cacheableOf req = true) (hl : storeLookup store (cacheKey req) = none) :
    executeRequest env opts store req = execNoCached env store req (cacheKey req) true := by
  unfold executeRequest
  rw [if_pos hc, hl]

theorem exr_eq_noncacheable (env : Env) (opts : CacheOptions) (store : Store)
    (req : Request) (hc : cacheableOf req = false) :
    executeRequest env opts store req
      = execNoCached env (storeDelete store (cacheKey req)) req (cacheKey req) false := by
  unfold executeRequest
  rw [if_neg (by rw [hc]; simp)]


theorem finishStore_gateway_resp (store : Store) (req : Request) (key : String)
    (cacheable : Bool) (called : Bool) (sent : Option Request) (served : Bool) :
    (finishStore store req key cacheable newGatewayTimeoutResponse called sent served).resp
      = some newGatewayTimeoutResponse := by
  unfold finishStore
  (repeat' split) <;> simp [addVaryEcho_gateway]

theorem exnc_no_store (env : Env) (store : Store) (req : Request) (key : String)
    (cacheable : Bool) (habs : storeLookup store key = none)
    (hns : ccHas (parseCacheControl req.header) "no-store" = true
      ∨ ∃ r, (execNoCached env store req key cacheable).resp = some r
          ∧ ccHas (parseCacheControl r.header) "no-store" = true) :
    storeLookup (execNoCached env store req key cacheable).store key = none
      ∧ (execNoCached env store req key cacheable).pending = none := by
  by_cases hoic : ccHas (parseCacheControl req.header) "only-if-cached" = true
  · rw [exnc_eq_oic env store req key cacheable hoic] at hns ⊢
    exact finishStore_no_store _ _ _ _ _ _ _ _ hns
  · simp only [Bool.not_eq_true] at hoic
    cases ht : env.transport req with
    | none =>
      rw [exnc_eq_err env store req key cacheable hoic ht]
      exact ⟨habs, rfl⟩
    | some r0 =>
      rw [exnc_eq_resp env store req key cacheable r0 hoic ht] at hns ⊢
      exact finishStore_no_store _ _ _ _ _ _ _ _ hns

theorem etc_no_store (env : Env) (store : Store) (req : Request) (key : String)
    (c : Response)
    (hne : (execTransportWithCached env store req key c).earlyCacheReturn = false)
    (hns : ccHas (parseCacheControl req.header) "no-store" = true
      ∨ ∃ r, (execTransportWithCached env store req key c).resp = some r
          ∧ ccHas (parseCacheControl r.header) "no-store" = true) :
    storeLookup (execTransportWithCached env store req key c).store key = none
      ∧ (execTransportWithCached env store req key c).pending = none := by
  cases ht : env.transport req with
  | none =>
    by_cases hsie : (req.method == "GET"
        && canStaleOnError env.pdate env.pdur env.since c.header req.header) = true
    · rw [etc_eq_err_sie env store req key c ht hsie] at hne
      exact absurd hne (by simp)
    · simp only [Bool.not_eq_true] at hsie
      rw [etc_eq_err env store req key c ht hsie]
      exact ⟨storeLookup_delete_self store key, rfl⟩
  | some r0 =>
    by_cases h304 : (req.method == "GET" && (r0.statusCode == 304)) = true
    · rw [etc_eq_304 env store req key c r0 ht h304] at hns ⊢
      exact finishStore_no_store _ _ _ _ _ _ _ _ hns
    · simp only [Bool.not_eq_true] at h304
      by_cases hsie : (decide (500 ≤ r0.statusCode) && req.method == "GET"
          && canStaleOnError env.pdate env.pdur env.since c.header req.header) = true
      · rw [etc_eq_sie env store req key c r0 ht h304 hsie] at hne
        exact absurd hne (by simp)
      · simp only [Bool.not_eq_true] at hsie
        rw [etc_eq_else env store req key c r0 ht h304 hsie] at hns ⊢
        exact finishStore_no_store _ _ _ _ _ _ _ _ hns

/-- C3 as amended: when either side of the exchange carries no-store,
the key is absent from storage on return and no deferred store is
scheduled, provided the exchange was not answered directly from cache by
one of the two early returns (a fresh hit or the stale-if-error
fallback, both of which return the cached entry and leave storage
untouched even under a no-store request directive). -/
theorem noStore_not_in_storage (env : Env) (opts : CacheOptions) (store : Store)
    (req : Request)
    (hne : (executeRequest env opts store req).earlyCacheReturn = false)
    (hns : ccHas (parseCacheControl req.header) "no-store" = true
      ∨ ∃ r, (executeRequest env opts store req).resp = some r
          ∧ ccHas (parseCacheControl r.header) "no-store" = true) :
    storeLookup (executeRequest env opts store req).store (cacheKey req) = none
      ∧ (executeRequest env opts store req).pending = none := by
  by_cases hc : cacheableOf req = true
  · cases hl : storeLookup store (cacheKey req) with
    | none =>
      rw [exr_eq_miss env opts store req hc hl] at hns ⊢
      exact exnc_no_store env store req (cacheKey req) true hl hns
    | some c0 =>
      rw [exr_eq_hit env opts store req c0 hc hl] at hne hns ⊢
      by_cases hv : varyMatches (markResp opts c0) req = true
      · rcases hf : getFreshness env.pdate env.pdur env.since req.header
            (markResp opts c0).header with _ | _ | _
        case pos.stale =>
          rw [exwc_eq_stale env store req (cacheKey req) (markResp opts c0) hv hf]
            at hne hns ⊢
          have hpcc : parseCacheControl (addValidators req (markResp opts c0)).header
              = parseCacheControl req.header :=
            parseCacheControl_congr _ _ (addValidators_hGet_cc req (markResp opts c0))
          rcases hns with hq | hrr
          · exact etc_no_store env store _ (cacheKey req) (markResp opts c0) hne
              (Or.inl (by rw [hpcc]; exact hq))
          · exact etc_no_store env store _ (cacheKey req) (markResp opts c0) hne (Or.inr hrr)
        case pos.fresh =>
          rw [exwc_eq_fresh env store req (cacheKey req) (markResp opts c0) hv hf] at hne
          exact absurd hne (by simp)
        case pos.transparent =>
          rw [exwc_eq_transparent env store req (cacheKey req) (markResp opts c0) hv hf]
            at hne hns ⊢
          exact etc_no_store env store req (cacheKey req) (markResp opts c0) hne hns
      · simp only [Bool.not_eq_true] at hv
        rw [exwc_eq_nomatch env store req (cacheKey req) (markResp opts c0) hv] at hne hns ⊢
        exact etc_no_store env store req (cacheKey req) (markResp opts c0) hne hns
  · simp only [Bool.not_eq_true] at hc
    rw [exr_eq_noncacheable env opts store req hc] at hns ⊢
    exact exnc_no_store env _ req (cacheKey req) false
      (storeLookup_delete_self store (cacheKey req)) hns

/-- C4 as amended: a request carrying only-if-cached for which storage
yields no entry under its key (or which is not cacheable at all) is
answered with the synthesized 504 Gateway Timeout response, which has no
headers and an empty body, and the transport is never invoked.  When an
entry exists but is unusable (Vary mismatch, or stale, or carrying
response no-cache), the code does contact the transport. -/
theorem onlyIfCached_no_entry_504 (env : Env) (opts : CacheOptions) (store : Store)
    (req : Request)
    (h1 : ccHas (parseCacheControl req.header) "only-if-cached" = true)
    (h2 : cacheableOf req = false ∨ storeLookup store (cacheKey req) = none) :
    (executeRequest env opts store req).calledTransport = false
      ∧ (executeRequest env opts store req).resp = some newGatewayTimeoutResponse := by
  by_cases hc : cacheableOf req = true
  · have hl : storeLookup store (cacheKey req) = none := by
      rcases h2 with h2 | h2
      · rw [hc] at h2; exact Bool.noConfusion h2
      · exact h2
    rw [exr_eq_miss env opts store req hc hl, exnc_eq_oic env store req (cacheKey req) true h1]
    exact ⟨finishStore_calledTransport _ _ _ _ _ _ _ _,
      finishStore_gateway_resp _ _ _ _ _ _ _⟩
  · simp only [Bool.not_eq_true] at hc
    rw [exr_eq_noncacheable env opts store req hc,
      exnc_eq_oic env _ req (cacheKey req) false h1]
    exact ⟨finishStore_calledTransport _ _ _ _ _ _ _ _,
      finishStore_gateway_resp _ _ _ _ _ _ _⟩


theorem finishStore_c2 (store : Store) (req : Request) (key : String) (resp : Response)
    (called : Bool) (sent : Option Request) (served : Bool) (r : Response)
    (habs : storeLookup store key = none)
    (hr : (finishStore store req key true resp called sent served).resp = some r) :
    ((req.method == "GET") = true
      → storeLookup (finishStore store req key true resp called sent served).store key = none)
    ∧ (canStore (parseCacheControl req.header) (parseCacheControl r.header) = false
      → storeLookup (finishStore store req key true resp called sent served).store key = none)
    ∧ ((req.method == "GET") = false
      → canStore (parseCacheControl req.header) (parseCacheControl r.header) = true
      → storeLookup (finishStore store req key true resp called sent served).store key
          = some r) := by
  obtain ⟨r2, hr2, hstat, hpcc⟩ := finishStore_resp store req key true resp called sent served
  rw [hr2] at hr
  have hrr : r = r2 := (Option.some.injEq .. ).mp hr.symm
  have hcseq : canStore (parseCacheControl req.header) (parseCacheControl r.header)
      = canStore (parseCacheControl req.header) (parseCacheControl resp.header) := by
    rw [hrr, hpcc]
  refine ⟨fun hm => finishStore_get_absent store req key true resp called sent served hm habs,
    fun hcs => ?_, fun hm hcs => ?_⟩
  · rw [hcseq] at hcs
    exact finishStore_not_canstore store req key true resp called sent served
      (by rw [hcs]; simp)
  · rw [hcseq] at hcs
    obtain ⟨r3, hr3, hlook⟩ := finishStore_nonget_store store req key resp called sent
      served hm hcs
    rw [hr2] at hr3
    have : r2 = r3 := (Option.some.injEq .. ).mp hr3
    rw [hrr, this]
    exact hlook

theorem exnc_c2 (env : Env) (store : Store) (req : Request) (key : String) (r : Response)
    (habs : storeLookup store key = none)
    (hr : (execNoCached env store req key true).resp = some r) :
    ((req.method == "GET") = true
      → storeLookup (execNoCached env store req key true).store key = none)
    ∧ (canStore (parseCacheControl req.header) (parseCacheControl r.header) = false
      → storeLookup (execNoCached env store req key true).store key = none)
    ∧ ((req.method == "GET") = false
      → canStore (parseCacheControl req.header) (parseCacheControl r.header) = true
      → storeLookup (execNoCached env store req key true).store key = some r) := by
  by_cases hoic : ccHas (parseCacheControl req.header) "only-if-cached" = true
  · rw [exnc_eq_oic env store req key true hoic] at hr ⊢
    exact finishStore_c2 store req key newGatewayTimeoutResponse false none false r habs hr
  · simp only [Bool.not_eq_true] at hoic
    cases ht : env.transport req with
    | none =>
      rw [exnc_eq_err env store req key true hoic ht] at hr
      exact Option.noConfusion hr
    | some r0 =>
      rw [exnc_eq_resp env store req key true r0 hoic ht] at hr ⊢
      exact finishStore_c2 store req key r0 true (some req) false r habs hr

theorem etc_c2 (env : Env) (store : Store) (req : Request) (key : String) (c r : Response)
    (hsv : (execTransportWithCached env store req key c).servedFromCache = false)
    (hr : (execTransportWithCached env store req key c).resp = some r)
    (hst : ¬(r.statusCode = 200)) :
    ((req.method == "GET") = true
      → storeLookup (execTransportWithCached env store req key c).store key = none)
    ∧ (canStore (parseCacheControl req.header) (parseCacheControl r.header) = false
      → storeLookup (execTransportWithCached env store req key c).store key = none)
    ∧ ((req.method == "GET") = false
      → canStore (parseCacheControl req.header) (parseCacheControl r.header) = true
      → storeLookup (execTransportWithCached env store req key c).store key = some r) := by
  cases ht : env.transport req with
  | none =>
    by_cases hsie : (req.method == "GET"
        && canStaleOnError env.pdate env.pdur env.since c.header req.header) = true
    · rw [etc_eq_err_sie env store req key c ht hsie] at hsv
      exact absurd hsv (by simp)
    · simp only [Bool.not_eq_true] at hsie
      rw [etc_eq_err env store req key c ht hsie] at hr
      exact Option.noConfusion hr
  | some r0 =>
    by_cases h304 : (req.method == "GET" && (r0.statusCode == 304)) = true
    · rw [etc_eq_304 env store req key c r0 ht h304] at hsv
      rw [finishStore_served _ _ _ _ _ _ _ _] at hsv
      exact Bool.noConfusion hsv
    · simp only [Bool.not_eq_true] at h304
      by_cases hsie : (decide (500 ≤ r0.statusCode) && req.method == "GET"
          && canStaleOnError env.pdate env.pdur env.since c.header req.header) = true
      · rw [etc_eq_sie env store req key c r0 ht h304 hsie] at hsv
        exact absurd hsv (by simp)
      · simp only [Bool.not_eq_true] at hsie
        rw [etc_eq_else env store req key c r0 ht h304 hsie] at hr ⊢
        have hst0 : ¬(r0.statusCode = 200) := by
          obtain ⟨r2, hr2, hstat, _⟩ := finishStore_resp
            (if !(r0.statusCode == 200) then storeDelete store key else store)
            req key true r0 true (some req) false
          rw [hr2] at hr
          have hrr : r = r2 := (Option.some.injEq .. ).mp hr.symm
          rw [hrr, hstat] at hst
          exact hst
        have hdel : (if !(r0.statusCode == 200) then storeDelete store key else store)
            = storeDelete store key := by
          rw [if_pos]
          simp [hst0]
        rw [hdel] at hr ⊢
        exact finishStore_c2 (storeDelete store key) req key r0 true (some req) false r
          (storeLookup_delete_self store key) hr

/-- C2 as amended: for a cacheable request whose exchange is not
answered from cache (not a fresh hit, not the stale-if-error fallback,
not a 304 merge) and terminates with a non-200 response, the storage
outcome is: a GET leaves the key absent at the end of the exchange (any
storage of the new response is deferred to body end-of-stream), a
failing canStore leaves the key absent, and a HEAD whose exchange passes
canStore has the non-200 response itself stored under the key; the
non-200 response is the one returned to the caller. -/
theorem cacheable_non200_storage (env : Env) (opts : CacheOptions) (store : Store)
    (req : Request) (r : Response) (hc : cacheableOf req = true)
    (hsv : (executeRequest env opts store req).servedFromCache = false)
    (hr : (executeRequest env opts store req).resp = some r)
    (hst : ¬(r.statusCode = 200)) :
    (req.method = "GET"
      → storeLookup (executeRequest env opts store req).store (cacheKey req) = none)
    ∧ (canStore (parseCacheControl req.header) (parseCacheControl r.header) = false
      → storeLookup (executeRequest env opts store req).store (cacheKey req) = none)
    ∧ (req.method = "HEAD"
      → canStore (parseCacheControl req.header) (parseCacheControl r.header) = true
      → storeLookup (executeRequest env opts store req).store (cacheKey req) = some r) := by
  have hb : ∀ s : String, req.method = s → (req.method == s) = true := by
    intro s hs; simp [hs]
  cases hl : storeLookup store (cacheKey req) with
  | none =>
    rw [exr_eq_miss env opts store req hc hl] at hr ⊢
    obtain ⟨g1, g2, g3⟩ := exnc_c2 env store req (cacheKey req) r hl hr
    refine ⟨fun hm => g1 (hb _ hm), g2, fun hm hcs => g3 ?_ hcs⟩
    rw [hm]
    decide
  | some c0 =>
    rw [exr_eq_hit env opts store req c0 hc hl] at hsv hr ⊢
    by_cases hv : varyMatches (markResp opts c0) req = true
    · rcases hf : getFreshness env.pdate env.pdur env.since req.header
          (markResp opts c0).header with _ | _ | _
      case pos.stale =>
        rw [exwc_eq_stale env store req (cacheKey req) (markResp opts c0) hv hf]
          at hsv hr ⊢
        obtain ⟨g1, g2, g3⟩ := etc_c2 env store (addValidators req (markResp opts c0))
          (cacheKey req) (markResp opts c0) r hsv hr hst
        have hmeq := addValidators_method req (markResp opts c0)
        have hpcc : parseCacheControl (addValidators req (markResp opts c0)).header
            = parseCacheControl req.header :=
          parseCacheControl_congr _ _ (addValidators_hGet_cc req (markResp opts c0))
        refine ⟨fun hm => g1 (by rw [hmeq, hm]; decide),
          fun hcs => g2 (by rw [hpcc]; exact hcs),
          fun hm hcs => g3 (by rw [hmeq, hm]; decide) (by rw [hpcc]; exact hcs)⟩
      case pos.fresh =>
        rw [exwc_eq_fresh env store req (cacheKey req) (markResp opts c0) hv hf] at hsv
        exact absurd hsv (by simp)
      case pos.transparent =>
        rw [exwc_eq_transparent env store req (cacheKey req) (markResp opts c0) hv hf]
          at hsv hr ⊢
        obtain ⟨g1, g2, g3⟩ := etc_c2 env store req (cacheKey req) (markResp opts c0) r
          hsv hr hst
        refine ⟨fun hm => g1 (hb _ hm), g2, fun hm hcs => g3 ?_ hcs⟩
        rw [hm]
        decide
    · simp only [Bool.not_eq_true] at hv
      rw [exwc_eq_nomatch env store req (cacheKey req) (markResp opts c0) hv] at hsv hr ⊢
      obtain ⟨g1, g2, g3⟩ := etc_c2 env store req (cacheKey req) (markResp opts c0) r
        hsv hr hst
      refine ⟨fun hm => g1 (hb _ hm), g2, fun hm hcs => g3 ?_ hcs⟩
      rw [hm]
      decide


theorem etc_sentReq (env : Env) (store : Store) (req : Request) (key : String)
    (c : Response) :
    (execTransportWithCached env store req key c).sentReq = some req
      ∧ (execTransportWithCached env store req key c).calledTransport = true := by
  cases ht : env.transport req with
  | none =>
    by_cases hsie : (req.method == "GET"
        && canStaleOnError env.pdate env.pdur env.since c.header req.header) = true
    · rw [etc_eq_err_sie env store req key c ht hsie]
      exact ⟨rfl, rfl⟩
    · simp only [Bool.not_eq_true] at hsie
      rw [etc_eq_err env store req key c ht hsie]
      exact ⟨rfl, rfl⟩
  | some r0 =>
    by_cases h304 : (req.method == "GET" && (r0.statusCode == 304)) = true
    · rw [etc_eq_304 env store req key c r0 ht h304]
      exact ⟨finishStore_sentReq _ _ _ _ _ _ _ _, finishStore_calledTransport _ _ _ _ _ _ _ _⟩
    · simp only [Bool.not_eq_true] at h304
      by_cases hsie : (decide (500 ≤ r0.statusCode) && req.method == "GET"
          && canStaleOnError env.pdate env.pdur env.since c.header req.header) = true
      · rw [etc_eq_sie env store req key c r0 ht h304 hsie]
        exact ⟨rfl, rfl⟩
      · simp only [Bool.not_eq_true] at hsie
        rw [etc_eq_else env store req key c r0 ht h304 hsie]
        exact ⟨finishStore_sentReq _ _ _ _ _ _ _ _,
          finishStore_calledTransport _ _ _ _ _ _ _ _⟩

/-- C5 as amended: when a cacheable request finds a vary-matching cached
entry that getFreshness judges stale, the request handed to the
transport is the validator-augmented clone: when the cached entry
carries a nonempty etag and the incoming request has no Etag header (the
code checks the Etag header of the request, not If-None-Match), the sent
request carries If-None-Match equal to the cached etag; independently,
when the cached entry carries a nonempty Last-Modified and the request
has no Last-Modified header (again, not If-Modified-Since), the sent
request carries If-Modified-Since equal to that value; both can hold at
once. -/
theorem stale_revalidation_validators (env : Env) (opts : CacheOptions) (store : Store)
    (req : Request) (c0 : Response) (hc : cacheableOf req = true)
    (hl : storeLookup store (cacheKey req) = some c0)
    (hv : varyMatches (markResp opts c0) req = true)
    (hf : getFreshness env.pdate env.pdur env.since req.header (markResp opts c0).header
      = EntryFreshness.stale) :
    (executeRequest env opts store req).sentReq
        = some (addValidators req (markResp opts c0))
      ∧ (¬(hGet (markResp opts c0).header "etag" = "") → hGet req.header "etag" = ""
          → hGet (addValidators req (markResp opts c0)).header "if-none-match"
              = hGet (markResp opts c0).header "etag")
      ∧ (¬(hGet (markResp opts c0).header "last-modified" = "")
          → hGet req.header "last-modified" = ""
          → hGet (addValidators req (markResp opts c0)).header "if-modified-since"
              = hGet (markResp opts c0).header "last-modified") := by
  rw [exr_eq_hit env opts store req c0 hc hl,
    exwc_eq_stale env store req (cacheKey req) (markResp opts c0) hv hf]
  exact ⟨(etc_sentReq env store _ (cacheKey req) (markResp opts c0)).1,
    fun he hre => addValidators_inm req (markResp opts c0) he hre,
    fun hlm hrl => addValidators_ims req (markResp opts c0) hlm hrl⟩


/-- C2 counterexample: a cacheable HEAD request with an empty cache and
a transport answering 404 ends the exchange with the 404 stored under
the request key — the entry has not been evicted by the end of the
exchange as the claim states (the store step immediately re-stores the
non-200 response for a HEAD). -/
theorem cacheable_head_404_stored_counterexample :
    cacheableOf reqHeadPlain = true
      ∧ (executeRequest (envTo resp404) optsPlain [] reqHeadPlain).resp = some resp404
      ∧ ¬(resp404.statusCode = 200)
      ∧ storeLookup (executeRequest (envTo resp404) optsPlain [] reqHeadPlain).store
          (cacheKey reqHeadPlain) = some resp404 := by
  refine ⟨by decide, by decide, by decide, by decide⟩

/-- C2 witness: the amended theorem applied to the concrete HEAD 404
scenario. -/
theorem cacheable_non200_storage_witness :
    storeLookup (executeRequest (envTo resp404) optsPlain [] reqHeadPlain).store
      (cacheKey reqHeadPlain) = some resp404 :=
  (cacheable_non200_storage (envTo resp404) optsPlain [] reqHeadPlain resp404
    (by decide) (by decide) (by decide) (by decide)).2.2 (by decide) (by decide)

/-- C3 counterexample: a fresh cache hit under a request carrying
no-store returns the cached entry and leaves it in storage, so an entry
for the key is still present after the exchange, contrary to the
claim. -/
theorem noStore_fresh_hit_counterexample :
    ccHas (parseCacheControl reqNoStore.header) "no-store" = true
      ∧ (executeRequest envErr optsPlain [("u", freshEntry)] reqNoStore).resp
          = some freshEntry
      ∧ storeLookup (executeRequest envErr optsPlain [("u", freshEntry)] reqNoStore).store
          (cacheKey reqNoStore) = some freshEntry := by
  refine ⟨by decide, by decide, by decide⟩

/-- C3 witness: the amended theorem applied to a no-store GET miss
answered 200 by the transport. -/
theorem noStore_not_in_storage_witness :
    storeLookup (executeRequest (envTo resp200) optsPlain [] reqNoStore).store
        (cacheKey reqNoStore) = none
      ∧ (executeRequest (envTo resp200) optsPlain [] reqNoStore).pending = none :=
  noStore_not_in_storage (envTo resp200) optsPlain [] reqNoStore (by decide)
    (Or.inl (by decide))

/-- C4 counterexample: an entry exists but its Vary record does not
match the new request, so there is no usable cache entry; yet with
only-if-cached the code contacts the transport and returns its response
instead of synthesizing a 504. -/
theorem onlyIfCached_vary_mismatch_counterexample :
    varyMatches varyEntry reqOnlyIfCachedVary = false
      ∧ ccHas (parseCacheControl reqOnlyIfCachedVary.header) "only-if-cached" = true
      ∧ (executeRequest (envTo resp200) optsPlain [("u", varyEntry)]
          reqOnlyIfCachedVary).calledTransport = true
      ∧ ¬((executeRequest (envTo resp200) optsPlain [("u", varyEntry)]
          reqOnlyIfCachedVary).resp = some newGatewayTimeoutResponse) := by
  refine ⟨by decide, by decide, by decide, by decide⟩

/-- C4 witness: the amended theorem applied to an only-if-cached GET
with an empty cache. -/
theorem onlyIfCached_no_entry_504_witness :
    (executeRequest (envTo resp200) optsPlain [] reqOnlyIfCached).calledTransport = false
      ∧ (executeRequest (envTo resp200) optsPlain [] reqOnlyIfCached).resp
          = some newGatewayTimeoutResponse :=
  onlyIfCached_no_entry_504 (envTo resp200) optsPlain [] reqOnlyIfCached (by decide)
    (Or.inr (by decide))

/-- C5 counterexample: a stale cached entry carries etag E1 and the
incoming request does not set If-None-Match (it carries an unrelated
Etag header); the code leaves the revalidation request without
If-None-Match because its guard checks the request Etag header, so the
revalidation request does not carry the cached etag as the claim
states. -/
theorem revalidation_etag_guard_counterexample :
    hGet etagEntry.header "etag" = "E1"
      ∧ hGet reqEtagHeader.header "if-none-match" = ""
      ∧ getFreshness (envTo resp200).pdate (envTo resp200).pdur (envTo resp200).since
          reqEtagHeader.header etagEntry.header = EntryFreshness.stale
      ∧ (executeRequest (envTo resp200) optsPlain [("u", etagEntry)] reqEtagHeader).sentReq
          = some reqEtagHeader
      ∧ ¬(hGet reqEtagHeader.header "if-none-match" = hGet etagEntry.header "etag") := by
  refine ⟨by decide, by decide, by decide, by decide, by decide⟩

/-- C5 witness: the amended theorem applied to a stale entry carrying
both validators and a plain GET request. -/
theorem stale_revalidation_validators_witness :
    (executeRequest (envTo resp200) optsPlain [("u", validatorEntry)] reqPlainGet).sentReq
        = some (addValidators reqPlainGet (markResp optsPlain validatorEntry))
      ∧ hGet (addValidators reqPlainGet (markResp optsPlain validatorEntry)).header
          "if-none-match" = hGet (markResp optsPlain validatorEntry).header "etag"
      ∧ hGet (addValidators reqPlainGet (markResp optsPlain validatorEntry)).header
          "if-modified-since"
          = hGet (markResp optsPlain validatorEntry).header "last-modified" :=
  have h := stale_revalidation_validators (envTo resp200) optsPlain
    [("u", validatorEntry)] reqPlainGet validatorEntry (by decide) (by decide) (by decide)
    (by decide)
  ⟨h.1, h.2.1 (by decide) (by decide), h.2.2 (by decide) (by decide)⟩


end Httpcache
